import Mathlib

/-!
Verification development for the host-side resource table and offload
protocol of `my-wasi-offload-project` (file
`host-offload-provider/src/lib.rs`).

The provider crate is compiled as a WebAssembly component for the
`wasm32-unknown-unknown` target in release mode (the runner loads
`target/wasm32-unknown-unknown/release/host_offload_provider.wasm`).
Consequences reflected in this embedding:
* `usize` is 32 bits wide, so a Rust expression `x as usize` on a `u64`
  value `x` denotes `x % 2^32`;
* arithmetic overflow of the built-in integer types wraps (release
  profile), it does not panic;
* `f32::to_ne_bytes` is little-endian (wasm byte order).

Machine integers are modelled as `Nat` with an explicit `% 2^w` exactly
where the source performs a narrowing cast or where wrapping can occur.
`HashMap` is modelled as an association list with replace-on-insert and
filter-on-remove; lookup agrees with `HashMap` behaviour and no theorem
depends on iteration order.
-/

namespace HostOffload

/-- Two to the 32: the size of the `u32`/`usize` value space on wasm32. -/
def U32M : Nat := 2 ^ 32

/-- Two to the 64: the size of the `u64` (`Handle`) value space. -/
def U64M : Nat := 2 ^ 64

/-- `type Handle = u64` from the WIT interface; values are `< U64M`. -/
abbrev Handle := Nat

/-- The `host-error` variant type used by `lib.rs`
(`InvalidHandle`, `CopyOutOfBounds`, `DimensionMismatch`, `Other(String)`). -/
inductive HostError where
  | invalidHandle
  | copyOutOfBounds
  | dimensionMismatch
  | other (msg : String)
deriving DecidableEq, Repr

/-- Lookup in an association list, mirroring `HashMap::get`. -/
def alistLookup {α : Type} (k : Nat) : List (Nat × α) → Option α
  | [] => none
  | (k', v) :: rest => if k' = k then some v else alistLookup k rest

/-- Removal of a key, mirroring `HashMap::remove` (drops every binding of
`k`; bindings are unique in every reachable state). -/
def alistRemove {α : Type} (k : Nat) (l : List (Nat × α)) : List (Nat × α) :=
  l.filter (fun p => p.1 != k)

/-- Insertion, mirroring `HashMap::insert` (replaces any binding of `k`). -/
def alistInsert {α : Type} (k : Nat) (v : α) (l : List (Nat × α)) : List (Nat × α) :=
  (k, v) :: alistRemove k l

/-- `struct HostState` from `lib.rs`: buffers and matrix dimensions keyed
by handle, plus the handle counter. Buffers are byte lists (entries `< 256`),
dimensions are `u32` pairs. -/
structure HostState where
  buffers : List (Nat × List Nat)
  matrix_dims : List (Nat × (Nat × Nat))
  next_handle : Handle
deriving DecidableEq, Repr

/-- `HostState::new()`: empty tables, `next_handle = 1`. -/
def initState : HostState := { buffers := [], matrix_dims := [], next_handle := 1 }

/-- Result of one exported operation. `fatal` models a Rust panic
(process abort) — only the handle-counter wraparound check produces it on
the paths modelled here. -/
inductive OpRes where
  | okHandle (h : Handle)
  | okUnit
  | okBytes (bs : List Nat)
  | okDims (rows cols : Nat)
  | err (e : HostError)
  | fatal
deriving DecidableEq, Repr

/-- `HostState::new_handle`: returns the current counter and increments it
(wrapping `u64` addition); panics when the incremented counter is zero. -/
def new_handle (s : HostState) : Option (Handle × HostState) :=
  let h := s.next_handle
  let n := (s.next_handle + 1) % U64M
  if n = 0 then none else some (h, { s with next_handle := n })

/-- `allocate_buffer(size: u64)`: rejects `size == 0`, otherwise reserves a
fresh handle and stores `vec![0u8; size as usize]` (note the narrowing cast
`size as usize`, i.e. `size % 2^32` on wasm32). -/
def allocate_buffer (s : HostState) (size : Nat) : HostState × OpRes :=
  if size = 0 then (s, .err (.other "Cannot allocate zero-size buffer"))
  else
    match new_handle s with
    | none => (s, .fatal)
    | some (h, s') =>
        ({ s' with buffers := alistInsert h (List.replicate (size % U32M) 0) s'.buffers },
         .okHandle h)

/-- `free_buffer(h)`: removes the buffer and the matrix dimensions for `h`;
`InvalidHandle` when `h` has no live buffer. -/
def free_buffer (s : HostState) (h : Handle) : HostState × OpRes :=
  match alistLookup h s.buffers with
  | some _ =>
      ({ s with buffers := alistRemove h s.buffers,
                matrix_dims := alistRemove h s.matrix_dims }, .okUnit)
  | none => (s, .err .invalidHandle)

/-- Overwrite `data` into `buf` starting at `off`
(`buffer[offset..end].copy_from_slice(&guest_bytes)` with
`end = off + data.length ≤ buf.length`). -/
def listWrite (buf : List Nat) (off : Nat) (data : List Nat) : List Nat :=
  buf.take off ++ data ++ buf.drop (off + data.length)

/-- `write_to_host(guest_bytes, target_handle, target_offset)`.
`target_offset as usize` truncates to 32 bits; the `usize` sum
`offset + guest_bytes.len()` is taken modulo `2^32` (wrapping, release
profile). When the wrapped end is in bounds but inconsistent with the
slice-copy precondition, the slice indexing / `copy_from_slice` panics. -/
def write_to_host (s : HostState) (guest_bytes : List Nat) (target_handle : Handle)
    (target_offset : Nat) : HostState × OpRes :=
  match alistLookup target_handle s.buffers with
  | none => (s, .err .invalidHandle)
  | some buffer =>
      let offset := target_offset % U32M
      let e := (offset + guest_bytes.length) % U32M
      if e > buffer.length then (s, .err .copyOutOfBounds)
      else if offset ≤ e ∧ e - offset = guest_bytes.length then
        ({ s with buffers :=
             alistInsert target_handle (listWrite buffer offset guest_bytes) s.buffers },
         .okUnit)
      else (s, .fatal)

/-- `read_from_host(source_handle, source_offset, len)`. Both `u64`
arguments pass through `as usize` (32-bit truncation); the `usize` bound
`offset + read_len` wraps. Out-of-range wrapped slices panic. -/
def read_from_host (s : HostState) (source_handle : Handle) (source_offset len : Nat) :
    HostState × OpRes :=
  match alistLookup source_handle s.buffers with
  | none => (s, .err .invalidHandle)
  | some buffer =>
      let offset := source_offset % U32M
      let read_len := len % U32M
      let e := (offset + read_len) % U32M
      if e > buffer.length then (s, .err .copyOutOfBounds)
      else if offset ≤ e then (s, .okBytes ((buffer.drop offset).take (e - offset)))
      else (s, .fatal)

/-- `register_matrix_dimensions(h, dims)`: requires a live buffer, then
stores `(dims.rows, dims.cols)`, overwriting any previous entry. -/
def register_matrix_dimensions (s : HostState) (h : Handle) (rows cols : Nat) :
    HostState × OpRes :=
  match alistLookup h s.buffers with
  | some _ =>
      ({ s with matrix_dims := alistInsert h (rows, cols) s.matrix_dims }, .okUnit)
  | none => (s, .err .invalidHandle)

/-- `get_matrix_dimensions(h)`: returns the stored dimensions;
`InvalidHandle` when none are stored. -/
def get_matrix_dimensions (s : HostState) (h : Handle) : HostState × OpRes :=
  match alistLookup h s.matrix_dims with
  | some d => (s, .okDims d.1 d.2)
  | none => (s, .err .invalidHandle)

/-! ### IEEE-754 binary32 values

A `f32` is carried as its 32-bit pattern (a `Nat < 2^32`), exactly as the
source moves raw bytes around and reinterprets them. `decodeF32` is the
exact real value of a finite bit pattern. `encodeF32` is its partial
inverse: it is the correct IEEE encoding for every rational that is
exactly representable as a *normal* binary32 value. Rounding of inexact
results, overflow to infinity, subnormal encoding and NaN propagation are
not modelled: every multiplication and addition evaluated by a theorem in
this development has operands and results that are exactly representable
small integers (for which IEEE arithmetic is exact, so exact rational
arithmetic coincides with what the hardware computes). -/

/-- Floor of the base-2 logarithm, fuel-based so that it reduces in the
kernel (`log2floor n = k` iff `2^k ≤ n < 2^(k+1)`, and `0` for `n ≤ 1`). -/
def log2floorAux : Nat → Nat → Nat
  | 0, _ => 0
  | fuel + 1, n => if n ≤ 1 then 0 else log2floorAux fuel (n / 2) + 1

/-- Floor of the base-2 logarithm of a positive natural. -/
def log2floor (n : Nat) : Nat := log2floorAux n n

/-- Exact rational value of a finite binary32 bit pattern (`none` for
exponent 255, i.e. infinities and NaNs). A normal pattern with exponent
field `e` and mantissa field `m` denotes `±(2^23 + m) · 2^(e - 150)`, a
subnormal one `±m · 2^-149`; both are written with `mkRat` over plain
`Nat`/`Int` arithmetic so that they evaluate in the kernel. -/
def decodeF32 (w : Nat) : Option ℚ :=
  let sgn : Int := if w / 2 ^ 31 % 2 = 1 then -1 else 1
  let e : Nat := w / 2 ^ 23 % 2 ^ 8
  let m : Nat := w % 2 ^ 23
  if e = 255 then none
  else if e = 0 then some (mkRat (sgn * m) (2 ^ 149))
  else some (mkRat (sgn * ((2 ^ 23 + m) * 2 ^ e)) (2 ^ 150))

/-- Binary32 bit pattern of a rational; faithful on rationals exactly
representable as normal binary32 values (every value encoded by a theorem
in this file is such a value). `E` is the binary exponent
(`2^E ≤ |q| < 2^(E+1)`, computed through a `2^300` shift that covers every
positive finite binary32 magnitude), and `m` is the 24-bit significand
`⌊|q| · 2^(23 - E)⌋` computed as `⌊n · 2^(346-E) / (d · 2^323)⌋` in `Nat`
arithmetic. -/
def encodeF32 (q : ℚ) : Nat :=
  if q.num = 0 then 0
  else
    let s : Nat := if q.num < 0 then 2 ^ 31 else 0
    let n : Nat := q.num.natAbs
    let d : Nat := q.den
    let E : Int := (log2floor (n * 2 ^ 300 / d) : Int) - 300
    let m : Nat := n * 2 ^ (346 - E).toNat / (d * 2 ^ 323)
    if 1 ≤ E + 127 ∧ E + 127 ≤ 254 then s + (E + 127).toNat * 2 ^ 23 + (m - 2 ^ 23)
    else s

/-- `f32` multiplication on bit patterns (exact on the fragment described
above; finite operands only — no theorem evaluates it elsewhere). -/
def f32mul (a b : Nat) : Nat :=
  match decodeF32 a, decodeF32 b with
  | some x, some y => encodeF32 (mkRat (x.num * y.num) (x.den * y.den))
  | _, _ => 0x7FC00000

/-- `f32` addition on bit patterns (same fragment as `f32mul`). -/
def f32add (a b : Nat) : Nat :=
  match decodeF32 a, decodeF32 b with
  | some x, some y => encodeF32 (mkRat (x.num * y.den + y.num * x.den) (x.den * y.den))
  | _, _ => 0x7FC00000

/-- Group a byte list into 32-bit words, 4 little-endian bytes each
(wasm byte order); a trailing fragment shorter than 4 bytes is dropped
(never reached: the caller checks divisibility by 4 first). -/
def bytesToWords : List Nat → List Nat
  | b0 :: b1 :: b2 :: b3 :: rest =>
      (b0 + 2 ^ 8 * b1 + 2 ^ 16 * b2 + 2 ^ 24 * b3) :: bytesToWords rest
  | _ => []

/-- Little-endian bytes of a 32-bit word (`f32::to_ne_bytes` on wasm32). -/
def wordToLEBytes (w : Nat) : List Nat :=
  [w % 2 ^ 8, w / 2 ^ 8 % 2 ^ 8, w / 2 ^ 16 % 2 ^ 8, w / 2 ^ 24 % 2 ^ 8]

/-- `bytes_to_f32_slice`: fails unless the length is a multiple of 4, then
reinterprets the bytes as `f32` bit patterns. The source also checks that
the buffer pointer is 4-byte aligned; the model treats that check as
satisfied (it depends on the allocator, not on any value the interface can
observe, and §4.3 of the spec licenses treating it as always satisfied). -/
def bytes_to_f32_slice (bytes : List Nat) : Option (List Nat) :=
  if bytes.length % 4 = 0 then some (bytesToWords bytes) else none

/-- `f32_slice_to_bytes`: concatenated little-endian bytes of each word. -/
def f32_slice_to_bytes (floats : List Nat) : List Nat :=
  (floats.map wordToLEBytes).flatten

/-- Entry `(i, j)` of the product of `a` (row-major, `cols_a` columns) and
`b` (row-major, `cols_b` columns): `Σ_k a[i][k] * b[k][j]` in `f32`. -/
def matProdEntry (a b : List Nat) (cols_a cols_b i j : Nat) : Nat :=
  ((List.range cols_a).map
      (fun k => f32mul (a.getD (i * cols_a + k) 0) (b.getD (k * cols_b + j) 0))).foldl
    f32add (encodeF32 0)

/-- The storage slice of the nalgebra product matrix, as returned by
`matrix_c.as_slice()`. nalgebra's `DMatrix` storage is column-major, so
the entries come out column by column (`j` outer, `i` inner) even though
both inputs were built with `from_row_slice`. -/
def matProdSlice (a b : List Nat) (rows_a cols_a cols_b : Nat) : List Nat :=
  ((List.range cols_b).map
      (fun j => (List.range rows_a).map (fun i => matProdEntry a b cols_a cols_b i j))).flatten

/-- `matrix_multiply_f32(handle_a, handle_b)`, following the source check
order: dimensions of A, buffer of A, cast of A, element-count of A (the
`u32` product `rows_a * cols_a` wraps modulo `2^32` in release mode before
the comparison with the slice length), then `DMatrix::from_row_slice` for
A, then the same four steps and `from_row_slice` for B, then the inner
dimension check, then allocation and column-major storage of the result.

`from_row_slice(rows, cols, slice)` asserts `slice.len() == rows * cols`
with the same wrapping `usize` product as the preceding length check (so
it passes whenever that check did) and then fills the matrix with checked
indexing `slice[i * cols + j]` for all `i < rows`, `j < cols`. Those
indices form the contiguous range `0 .. rows·cols - 1` reduced mod `2^32`:
when the true product is `< 2^32` they all lie below `slice.len()` and
the fill succeeds, and when it is `≥ 2^32` they cover every residue, so
some checked access reaches an index `≥ slice.len()` and panics. Hence,
after a passed length check, `from_row_slice` panics exactly when the
true `rows·cols` is `≥ 2^32` — modelled by the two `fatal` branches. -/
def matrix_multiply_f32 (s : HostState) (handle_a handle_b : Handle) : HostState × OpRes :=
  match alistLookup handle_a s.matrix_dims with
  | none => (s, .err .invalidHandle)
  | some (rows_a, cols_a) =>
  match alistLookup handle_a s.buffers with
  | none => (s, .err .invalidHandle)
  | some buffer_a_bytes =>
  match bytes_to_f32_slice buffer_a_bytes with
  | none => (s, .err (.other "Failed to cast buffer A to f32"))
  | some matrix_a_data =>
  if matrix_a_data.length ≠ rows_a * cols_a % U32M then
    (s, .err (.other "Buffer A size mismatch with dims"))
  else
  if U32M ≤ rows_a * cols_a then (s, .fatal)
  else
  match alistLookup handle_b s.matrix_dims with
  | none => (s, .err .invalidHandle)
  | some (rows_b, cols_b) =>
  match alistLookup handle_b s.buffers with
  | none => (s, .err .invalidHandle)
  | some buffer_b_bytes =>
  match bytes_to_f32_slice buffer_b_bytes with
  | none => (s, .err (.other "Failed to cast buffer B to f32"))
  | some matrix_b_data =>
  if matrix_b_data.length ≠ rows_b * cols_b % U32M then
    (s, .err (.other "Buffer B size mismatch with dims"))
  else
  if U32M ≤ rows_b * cols_b then (s, .fatal)
  else
  if cols_a ≠ rows_b then (s, .err .dimensionMismatch)
  else
  match new_handle s with
  | none => (s, .fatal)
  | some (handle_c, s') =>
      let c_bytes := f32_slice_to_bytes (matProdSlice matrix_a_data matrix_b_data rows_a cols_a cols_b)
      ({ s' with buffers := alistInsert handle_c c_bytes s'.buffers,
                 matrix_dims := alistInsert handle_c (rows_a, cols_b) s'.matrix_dims },
       .okHandle handle_c)

/-! ### Operation syntax and traces -/

/-- One invocation of an exported operation of the provider. -/
inductive Op where
  | alloc (size : Nat)
  | free (h : Handle)
  | write (data : List Nat) (h : Handle) (offset : Nat)
  | read (h : Handle) (offset len : Nat)
  | regDims (h : Handle) (rows cols : Nat)
  | getDims (h : Handle)
  | mul (a b : Handle)
deriving DecidableEq, Repr

/-- Dispatch one operation to its implementation. -/
def step (s : HostState) : Op → HostState × OpRes
  | .alloc size => allocate_buffer s size
  | .free h => free_buffer s h
  | .write data h off => write_to_host s data h off
  | .read h off len => read_from_host s h off len
  | .regDims h r c => register_matrix_dimensions s h r c
  | .getDims h => get_matrix_dimensions s h
  | .mul a b => matrix_multiply_f32 s a b

/-- Run a sequence of operations, collecting each result. A `fatal` result
(process abort) stops the run: no later operation executes. -/
def run (s : HostState) : List Op → HostState × List OpRes
  | [] => (s, [])
  | op :: ops =>
      match step s op with
      | (s', .fatal) => (s', [.fatal])
      | (s', r) =>
          let (s'', rs) := run s' ops
          (s'', r :: rs)

/-- The handles handed out by successful allocations in a result list —
both direct `allocate_buffer` calls and the result handle of a successful
`matrix_multiply_f32` produce an `okHandle`. -/
def allocHandles : List OpRes → List Handle
  | [] => []
  | .okHandle h :: rs => h :: allocHandles rs
  | _ :: rs => allocHandles rs

/-! ### Spec §7 error taxonomy

The spec names error *kinds*, not representations. The source's
`HostError` has no dedicated variants for the spec's InvalidArgument and
ShapeMismatch kinds; it represents them as `Other` with the fixed messages
classified below (§4.3 step 2 of the spec counts both the failed cast and
the element-count mismatch as the type/shape error kind). -/

/-- The error kinds of spec §7. -/
inductive ErrorKind where
  | invalidHandle
  | outOfBounds
  | invalidArgument
  | shapeMismatch
  | dimensionMismatch
  | otherKind
deriving DecidableEq, Repr

/-- Classification of the concrete `HostError` values produced by
`lib.rs` into spec error kinds. -/
def errorKind : HostError → ErrorKind
  | .invalidHandle => .invalidHandle
  | .copyOutOfBounds => .outOfBounds
  | .dimensionMismatch => .dimensionMismatch
  | .other "Cannot allocate zero-size buffer" => .invalidArgument
  | .other "Buffer A size mismatch with dims" => .shapeMismatch
  | .other "Buffer B size mismatch with dims" => .shapeMismatch
  | .other "Failed to cast buffer A to f32" => .shapeMismatch
  | .other "Failed to cast buffer B to f32" => .shapeMismatch
  | .other _ => .otherKind

/-! ### Association list lemmas -/

theorem alistLookup_insert_self {α : Type} (k : Nat) (v : α) (l : List (Nat × α)) :
    alistLookup k (alistInsert k v l) = some v := by
  simp [alistInsert, alistLookup]

theorem alistLookup_remove_self {α : Type} (k : Nat) (l : List (Nat × α)) :
    alistLookup k (alistRemove k l) = none := by
  induction l with
  | nil => rfl
  | cons p rest ih =>
      by_cases h : p.1 = k
      · simpa [alistRemove, List.filter_cons, h] using ih
      · simpa [alistRemove, List.filter_cons, bne_iff_ne, h, alistLookup] using ih

theorem alistLookup_remove_ne {α : Type} {k k' : Nat} (l : List (Nat × α)) (h : k ≠ k') :
    alistLookup k (alistRemove k' l) = alistLookup k l := by
  induction l with
  | nil => rfl
  | cons p rest ih =>
      by_cases hp : p.1 = k'
      · simpa [alistRemove, List.filter_cons, hp, alistLookup, h.symm] using ih
      · by_cases hk : p.1 = k
        · simp [alistRemove, List.filter_cons, bne_iff_ne, hp, alistLookup, hk, h]
        · simpa [alistRemove, List.filter_cons, bne_iff_ne, hp, alistLookup, hk, h] using ih

theorem alistLookup_insert_ne {α : Type} {k k' : Nat} (v : α) (l : List (Nat × α))
    (h : k ≠ k') : alistLookup k (alistInsert k' v l) = alistLookup k l := by
  simp [alistInsert, alistLookup, h.symm, alistLookup_remove_ne l h]

theorem mem_alistRemove {α : Type} {p : Nat × α} {k : Nat} {l : List (Nat × α)}
    (h : p ∈ alistRemove k l) : p ∈ l ∧ p.1 ≠ k := by
  have hm := List.mem_filter.mp h
  exact ⟨hm.1, by simpa using hm.2⟩

theorem mem_alistInsert {α : Type} {p : Nat × α} {k : Nat} {v : α} {l : List (Nat × α)}
    (h : p ∈ alistInsert k v l) : p = (k, v) ∨ p ∈ l := by
  rcases List.mem_cons.mp h with h' | h'
  · exact Or.inl h'
  · exact Or.inr (mem_alistRemove h').1

theorem alistLookup_some_mem {α : Type} {k : Nat} {v : α} {l : List (Nat × α)}
    (h : alistLookup k l = some v) : (k, v) ∈ l := by
  induction l with
  | nil => nomatch h
  | cons p rest ih =>
      by_cases hp : p.1 = k
      · simp [alistLookup, hp] at h
        subst hp h
        exact List.mem_cons_self p rest
      · simp [alistLookup, hp] at h
        exact List.mem_cons_of_mem p (ih h)

theorem alistLookup_isSome_ne_none {α : Type} {k : Nat} {l : List (Nat × α)} {v : α}
    (h : alistLookup k l = some v) : alistLookup k l ≠ none := by
  simp [h]

/-! ### Byte and list lemmas -/

theorem bytesToWords_length : ∀ bs : List Nat, (bytesToWords bs).length = bs.length / 4
  | [] => rfl
  | [_] => by simp [bytesToWords]
  | [_, _] => by simp [bytesToWords]
  | [_, _, _] => by simp [bytesToWords]
  | _ :: _ :: _ :: _ :: rest => by
      simp only [bytesToWords, List.length_cons, bytesToWords_length rest]
      omega

theorem listWrite_length {buf data : List Nat} {off : Nat}
    (h : off + data.length ≤ buf.length) :
    (listWrite buf off data).length = buf.length := by
  simp [listWrite]
  omega

theorem listWrite_readback {buf data : List Nat} {off : Nat}
    (h : off + data.length ≤ buf.length) :
    ((listWrite buf off data).drop off).take data.length = data := by
  have hofflen : (buf.take off).length = off := by
    simp only [List.length_take]
    omega
  have h1 : (listWrite buf off data).drop off = data ++ buf.drop (off + data.length) := by
    have h2 := List.drop_left (buf.take off) (data ++ buf.drop (off + data.length))
    rw [hofflen] at h2
    simpa [listWrite, List.append_assoc] using h2
  rw [h1]
  exact List.take_left data _

/-! ### Reachable-state invariant -/

/-- Invariant of every reachable state: the counter is positive and below
`2^64`, every key of either table is below the counter, and every handle
with registered dimensions has a live buffer. -/
def Inv (s : HostState) : Prop :=
  1 ≤ s.next_handle ∧ s.next_handle < U64M ∧
  (∀ p ∈ s.buffers, p.1 < s.next_handle) ∧
  (∀ p ∈ s.matrix_dims, p.1 < s.next_handle) ∧
  (∀ p ∈ s.matrix_dims, alistLookup p.1 s.buffers ≠ none)

theorem Inv_initState : Inv initState := by
  refine ⟨Nat.le_refl 1, ?_, ?_, ?_, ?_⟩ <;> simp [initState, U64M]

theorem new_handle_some {s : HostState} {h : Handle} {s' : HostState}
    (hlt : s.next_handle < U64M) (he : new_handle s = some (h, s')) :
    h = s.next_handle ∧ s' = { s with next_handle := s.next_handle + 1 } ∧
    s.next_handle + 1 < U64M := by
  unfold new_handle at he
  by_cases hz : (s.next_handle + 1) % U64M = 0
  · simp [hz] at he
  · have hne : s.next_handle + 1 ≠ U64M := by
      intro hEq
      exact hz (by rw [hEq]; exact Nat.mod_self U64M)
    have hlt' : s.next_handle + 1 < U64M := lt_of_le_of_ne hlt hne
    have hmod : (s.next_handle + 1) % U64M = s.next_handle + 1 := Nat.mod_eq_of_lt hlt'
    simp [hz, hmod] at he
    exact ⟨he.1.symm, he.2.symm, hlt'⟩

/-- Per-operation facts: every operation preserves the invariant, never
decreases the handle counter, and hands out a fresh handle equal to the
old counter (incrementing it) when it returns `okHandle`. -/
theorem step_props (s : HostState) (op : Op) (hs : Inv s) :
    Inv (step s op).1 ∧ s.next_handle ≤ (step s op).1.next_handle ∧
    ∀ h, (step s op).2 = .okHandle h →
      h = s.next_handle ∧ (step s op).1.next_handle = s.next_handle + 1 := by
  obtain ⟨h1, h2, hb, hd, hsub⟩ := hs
  cases op with
  | alloc size =>
      simp only [step, allocate_buffer]
      by_cases hz : size = 0
      · simp only [if_pos hz]
        exact ⟨⟨h1, h2, hb, hd, hsub⟩, Nat.le_refl _, fun h hc => nomatch hc⟩
      · simp only [if_neg hz]
        cases hnh : new_handle s with
        | none =>
            exact ⟨⟨h1, h2, hb, hd, hsub⟩, Nat.le_refl _, fun h hc => nomatch hc⟩
        | some pr =>
            obtain ⟨h', s2⟩ := pr
            obtain ⟨hh, hseq, hlt'⟩ := new_handle_some h2 hnh
            subst hh hseq
            refine ⟨⟨Nat.le_succ_of_le h1, hlt', ?_, ?_, ?_⟩, Nat.le_succ _, ?_⟩
            · intro p hp
              rcases mem_alistInsert hp with hpe | hpm
              · rw [hpe]; exact Nat.lt_succ_self _
              · exact Nat.lt_succ_of_lt (hb p hpm)
            · intro p hp
              exact Nat.lt_succ_of_lt (hd p hp)
            · intro p hp
              by_cases hpe : p.1 = s.next_handle
              · rw [hpe, alistLookup_insert_self]; simp
              · rw [alistLookup_insert_ne _ _ hpe]; exact hsub p hp
            · intro h hc
              cases hc
              exact ⟨rfl, rfl⟩
  | free h0 =>
      simp only [step, free_buffer]
      cases hl : alistLookup h0 s.buffers with
      | none => exact ⟨⟨h1, h2, hb, hd, hsub⟩, Nat.le_refl _, fun h hc => nomatch hc⟩
      | some buf =>
          refine ⟨⟨h1, h2, ?_, ?_, ?_⟩, Nat.le_refl _, fun h hc => nomatch hc⟩
          · intro p hp; exact hb p (mem_alistRemove hp).1
          · intro p hp; exact hd p (mem_alistRemove hp).1
          · intro p hp
            obtain ⟨hpmem, hpne⟩ := mem_alistRemove hp
            rw [alistLookup_remove_ne _ hpne]
            exact hsub p hpmem
  | write data h0 off =>
      simp only [step, write_to_host]
      split
      · exact ⟨⟨h1, h2, hb, hd, hsub⟩, Nat.le_refl _, fun h hc => nomatch hc⟩
      · rename_i buf heq
        have hmem0 : h0 < s.next_handle := hb (h0, buf) (alistLookup_some_mem heq)
        split
        · exact ⟨⟨h1, h2, hb, hd, hsub⟩, Nat.le_refl _, fun h hc => nomatch hc⟩
        · split
          · refine ⟨⟨h1, h2, ?_, hd, ?_⟩, Nat.le_refl _, fun h hc => nomatch hc⟩
            · intro p hp
              rcases mem_alistInsert hp with hpe | hpm
              · rw [hpe]; exact hmem0
              · exact hb p hpm
            · intro p hp
              by_cases hpe : p.1 = h0
              · rw [hpe, alistLookup_insert_self]; simp
              · rw [alistLookup_insert_ne _ _ hpe]; exact hsub p hp
          · exact ⟨⟨h1, h2, hb, hd, hsub⟩, Nat.le_refl _, fun h hc => nomatch hc⟩
  | read h0 off len =>
      simp only [step, read_from_host]
      split
      · exact ⟨⟨h1, h2, hb, hd, hsub⟩, Nat.le_refl _, fun h hc => nomatch hc⟩
      · split
        · exact ⟨⟨h1, h2, hb, hd, hsub⟩, Nat.le_refl _, fun h hc => nomatch hc⟩
        · split
          · exact ⟨⟨h1, h2, hb, hd, hsub⟩, Nat.le_refl _, fun h hc => nomatch hc⟩
          · exact ⟨⟨h1, h2, hb, hd, hsub⟩, Nat.le_refl _, fun h hc => nomatch hc⟩
  | regDims h0 r c =>
      simp only [step, register_matrix_dimensions]
      cases hl : alistLookup h0 s.buffers with
      | none => exact ⟨⟨h1, h2, hb, hd, hsub⟩, Nat.le_refl _, fun h hc => nomatch hc⟩
      | some buf =>
          have hmem0 : h0 < s.next_handle := hb (h0, buf) (alistLookup_some_mem hl)
          refine ⟨⟨h1, h2, hb, ?_, ?_⟩, Nat.le_refl _, fun h hc => nomatch hc⟩
          · intro p hp
            rcases mem_alistInsert hp with hpe | hpm
            · rw [hpe]; exact hmem0
            · exact hd p hpm
          · intro p hp
            rcases mem_alistInsert hp with hpe | hpm
            · rw [hpe]; simp [hl]
            · exact hsub p hpm
  | getDims h0 =>
      simp only [step, get_matrix_dimensions]
      cases hl : alistLookup h0 s.matrix_dims with
      | none => exact ⟨⟨h1, h2, hb, hd, hsub⟩, Nat.le_refl _, fun h hc => nomatch hc⟩
      | some d => exact ⟨⟨h1, h2, hb, hd, hsub⟩, Nat.le_refl _, fun h hc => nomatch hc⟩
  | mul a b =>
      simp only [step, matrix_multiply_f32]
      repeat'
        first
        | exact ⟨⟨h1, h2, hb, hd, hsub⟩, Nat.le_refl _, fun h hc => nomatch hc⟩
        | split
      rename_i hc0 s2 heq
      obtain ⟨hh, hseq, hlt'⟩ := new_handle_some h2 heq
      subst hh hseq
      refine ⟨⟨Nat.le_succ_of_le h1, hlt', ?_, ?_, ?_⟩, Nat.le_succ _, ?_⟩
      · intro p hp
        rcases mem_alistInsert hp with hpe | hpm
        · rw [hpe]; exact Nat.lt_succ_self _
        · exact Nat.lt_succ_of_lt (hb p hpm)
      · intro p hp
        rcases mem_alistInsert hp with hpe | hpm
        · rw [hpe]; exact Nat.lt_succ_self _
        · exact Nat.lt_succ_of_lt (hd p hpm)
      · intro p hp
        rcases mem_alistInsert hp with hpe | hpm
        · rw [hpe]; simp [alistLookup_insert_self]
        · have hpne : p.1 ≠ s.next_handle := Nat.ne_of_lt (hd p hpm)
          rw [alistLookup_insert_ne _ _ hpne]
          exact hsub p hpm
      · intro h hc2
        cases hc2
        exact ⟨rfl, rfl⟩

/-- Trace-level facts: running any operation sequence from an invariant
state preserves the invariant, never decreases the counter, and the
handles handed out by successful allocations are all at least the
starting counter and strictly increasing. -/
theorem run_props (ops : List Op) (s : HostState) (hs : Inv s) :
    Inv (run s ops).1 ∧ s.next_handle ≤ (run s ops).1.next_handle ∧
    (∀ g ∈ allocHandles (run s ops).2, s.next_handle ≤ g) ∧
    List.Chain' (fun x y => x < y) (allocHandles (run s ops).2) := by
  induction ops generalizing s with
  | nil =>
      exact ⟨hs, Nat.le_refl _, by simp [run, allocHandles], by simp [run, allocHandles]⟩
  | cons op rest ih =>
      obtain ⟨hinv, hmono, hok⟩ := step_props s op hs
      cases hstep : step s op with
      | mk s' r =>
        rw [hstep] at hinv hmono hok
        dsimp only at hinv hmono hok
        cases r with
        | fatal =>
            have hrunEq : run s (op :: rest) = (s', [.fatal]) := by
              simp [run, hstep]
            rw [hrunEq]
            exact ⟨hinv, hmono, by simp [allocHandles], by simp [allocHandles]⟩
        | okHandle h =>
            obtain ⟨hh, hnext⟩ := hok h rfl
            obtain ⟨ih1, ih2, ih3, ih4⟩ := ih s' hinv
            cases hrun : run s' rest with
            | mk s'' rs =>
              simp only [hrun] at ih1 ih2 ih3 ih4
              have hrunEq : run s (op :: rest) = (s'', .okHandle h :: rs) := by
                simp [run, hstep, hrun]
              rw [hrunEq]
              simp only [allocHandles]
              refine ⟨ih1, le_trans hmono ih2, ?_, ?_⟩
              · intro g hg
                rcases List.mem_cons.mp hg with hge | hgm
                · rw [hge, hh]
                · have hge2 := ih3 g hgm
                  rw [hnext] at hge2
                  exact le_trans (Nat.le_succ _) hge2
              · rw [List.chain'_cons']
                refine ⟨?_, ih4⟩
                intro y hy
                have hyge := ih3 y (List.mem_of_mem_head? hy)
                rw [hnext] at hyge
                show h < y
                rw [hh]
                exact Nat.lt_of_succ_le hyge
        | okUnit =>
            obtain ⟨ih1, ih2, ih3, ih4⟩ := ih s' hinv
            cases hrun : run s' rest with
            | mk s'' rs =>
              simp only [hrun] at ih1 ih2 ih3 ih4
              have hrunEq : run s (op :: rest) = (s'', .okUnit :: rs) := by
                simp [run, hstep, hrun]
              rw [hrunEq]
              exact ⟨ih1, le_trans hmono ih2,
                by simpa [allocHandles] using fun g hg => le_trans hmono (ih3 g hg),
                by simpa [allocHandles] using ih4⟩
        | okBytes bs =>
            obtain ⟨ih1, ih2, ih3, ih4⟩ := ih s' hinv
            cases hrun : run s' rest with
            | mk s'' rs =>
              simp only [hrun] at ih1 ih2 ih3 ih4
              have hrunEq : run s (op :: rest) = (s'', .okBytes bs :: rs) := by
                simp [run, hstep, hrun]
              rw [hrunEq]
              exact ⟨ih1, le_trans hmono ih2,
                by simpa [allocHandles] using fun g hg => le_trans hmono (ih3 g hg),
                by simpa [allocHandles] using ih4⟩
        | okDims r c =>
            obtain ⟨ih1, ih2, ih3, ih4⟩ := ih s' hinv
            cases hrun : run s' rest with
            | mk s'' rs =>
              simp only [hrun] at ih1 ih2 ih3 ih4
              have hrunEq : run s (op :: rest) = (s'', .okDims r c :: rs) := by
                simp [run, hstep, hrun]
              rw [hrunEq]
              exact ⟨ih1, le_trans hmono ih2,
                by simpa [allocHandles] using fun g hg => le_trans hmono (ih3 g hg),
                by simpa [allocHandles] using ih4⟩
        | err e =>
            obtain ⟨ih1, ih2, ih3, ih4⟩ := ih s' hinv
            cases hrun : run s' rest with
            | mk s'' rs =>
              simp only [hrun] at ih1 ih2 ih3 ih4
              have hrunEq : run s (op :: rest) = (s'', .err e :: rs) := by
                simp [run, hstep, hrun]
              rw [hrunEq]
              exact ⟨ih1, le_trans hmono ih2,
                by simpa [allocHandles] using fun g hg => le_trans hmono (ih3 g hg),
                by simpa [allocHandles] using ih4⟩

/-- A successful `free_buffer` implies the handle had a live buffer. -/
theorem free_ok_lookup {s : HostState} {h : Handle}
    (hfree : (free_buffer s h).2 = .okUnit) :
    ∃ v, alistLookup h s.buffers = some v := by
  cases hl : alistLookup h s.buffers with
  | none => rw [free_buffer, hl] at hfree; nomatch hfree
  | some v => exact ⟨v, rfl⟩

/-- The state after a successful `free_buffer`. -/
theorem free_ok_state {s : HostState} {h : Handle} {v : List Nat}
    (hv : alistLookup h s.buffers = some v) :
    free_buffer s h =
      ({ s with buffers := alistRemove h s.buffers,
                matrix_dims := alistRemove h s.matrix_dims }, .okUnit) := by
  rw [free_buffer, hv]

/-! ### Claim theorems -/

set_option maxRecDepth 100000 in
/-- C1. The concrete multiply scenario: A = [[1,2,3],[4,5,6]] (2×3) and
B = [[7,8],[9,10],[11,12]] (3×2) are written as little-endian f32 bytes,
shapes are registered, and `matrix_multiply_f32` succeeds with result
shape (2,2) — but reading the 16-byte result buffer yields the product
entries 58, 64, 139, 154 in **column-major** order (58, 139, 64, 154),
because `matrix_c.as_slice()` exposes nalgebra's column-major storage.
The claim's row-major byte sequence (third conjunct) differs, so the
claim fails on the code: the returned bytes (second conjunct) are the
f32 encodings of 58, 139, 64, 154, not of 58, 64, 139, 154. -/
theorem C1_multiply_concrete_column_major :
    (run initState
        [.alloc 24,
         .write [0, 0, 128, 63, 0, 0, 0, 64, 0, 0, 64, 64,
                 0, 0, 128, 64, 0, 0, 160, 64, 0, 0, 192, 64] 1 0,
         .regDims 1 2 3,
         .alloc 24,
         .write [0, 0, 224, 64, 0, 0, 0, 65, 0, 0, 16, 65,
                 0, 0, 32, 65, 0, 0, 48, 65, 0, 0, 64, 65] 2 0,
         .regDims 2 3 2,
         .mul 1 2, .getDims 3, .read 3 0 16]).2 =
      [.okHandle 1, .okUnit, .okUnit, .okHandle 2, .okUnit, .okUnit, .okHandle 3,
       .okDims 2 2,
       .okBytes [0, 0, 104, 66, 0, 0, 11, 67, 0, 0, 128, 66, 0, 0, 26, 67]]
      ∧
    [0, 0, 104, 66, 0, 0, 11, 67, 0, 0, 128, 66, 0, 0, 26, 67] =
      f32_slice_to_bytes [encodeF32 58, encodeF32 139, encodeF32 64, encodeF32 154] ∧
    [0, 0, 104, 66, 0, 0, 11, 67, 0, 0, 128, 66, 0, 0, 26, 67] ≠
      f32_slice_to_bytes [encodeF32 58, encodeF32 64, encodeF32 139, encodeF32 154] := by
  decide

/-- C2. Bounds-check bypass by offset truncation: on a live 10-byte
buffer, `write([42], h, 2^32)` must fail OutOfBounds (2^32 + 1 > 10) per
the claim — but `target_offset as usize` truncates 2^32 to 0 on wasm32,
the bounds check passes, the call returns Ok, and the buffer is modified
at position 0. -/
theorem C2_write_offset_truncation :
    (run initState [.alloc 10, .write [42] 1 (2 ^ 32)]).2 = [.okHandle 1, .okUnit] ∧
    alistLookup 1 (run initState [.alloc 10, .write [42] 1 (2 ^ 32)]).1.buffers =
      some [42, 0, 0, 0, 0, 0, 0, 0, 0, 0] ∧
    2 ^ 32 + 1 > 10 := by
  decide

/-- C3. The element-count check compares the slice length against the
wrapping `u32` product `rows * cols`: registering shape (641, 6700417)
(whose product is 2^32 + 1, wrapping to 1) on a live 4-byte buffer —
byte length 4 ≠ 641 · 6700417 · 4 — slips through the shape check, and
`matrix_multiply_f32` with that handle as both operands then panics
(process abort) inside `from_row_slice`'s checked slice indexing, so the
call never fails with the ShapeMismatch error the claim requires — it
does not return an error at all (third conjunct). -/
theorem C3_shape_check_u32_wraparound :
    (run initState [.alloc 4, .regDims 1 641 6700417, .mul 1 1]).2 =
      [.okHandle 1, .okUnit, .fatal] ∧
    (4 : Nat) ≠ 641 * 6700417 * 4 ∧
    (∀ e : HostError, OpRes.fatal ≠ .err e) :=
  ⟨by decide, by decide, fun _ hc => nomatch hc⟩

/-- C4. Dimension mismatch: for two live handles whose registered shapes
are consistent with their buffer lengths (`len = rows·cols·4`, with the
buffer length below the wasm32 address-space bound `2^32`, as every real
`Vec<u8>` length is), `matrix_multiply_f32` fails with DimensionMismatch
whenever `cols_a ≠ rows_b`, and the state is unchanged. -/
theorem C4_dimension_mismatch (s : HostState) (a b : Handle) (rA cA rB cB : Nat)
    (bufA bufB : List Nat)
    (hda : alistLookup a s.matrix_dims = some (rA, cA))
    (hba : alistLookup a s.buffers = some bufA)
    (hdb : alistLookup b s.matrix_dims = some (rB, cB))
    (hbb : alistLookup b s.buffers = some bufB)
    (hla : bufA.length = rA * cA * 4) (hlb : bufB.length = rB * cB * 4)
    (hwa : bufA.length < U32M) (hwb : bufB.length < U32M)
    (hne : cA ≠ rB) :
    matrix_multiply_f32 s a b = (s, .err .dimensionMismatch) := by
  have h4a : bufA.length % 4 = 0 := by rw [hla]; exact Nat.mul_mod_left _ 4
  have h4b : bufB.length % 4 = 0 := by rw [hlb]; exact Nat.mul_mod_left _ 4
  have hlenA : (bytesToWords bufA).length = rA * cA := by
    rw [bytesToWords_length, hla]; omega
  have hlenB : (bytesToWords bufB).length = rB * cB := by
    rw [bytesToWords_length, hlb]; omega
  have hltA : rA * cA < U32M := by unfold U32M at *; omega
  have hltB : rB * cB < U32M := by unfold U32M at *; omega
  have hmodA : rA * cA % U32M = rA * cA := Nat.mod_eq_of_lt hltA
  have hmodB : rB * cB % U32M = rB * cB := Nat.mod_eq_of_lt hltB
  have hnA : ¬ U32M ≤ rA * cA := Nat.not_le_of_lt hltA
  have hnB : ¬ U32M ≤ rB * cB := Nat.not_le_of_lt hltB
  simp [matrix_multiply_f32, hda, hba, hdb, hbb, bytes_to_f32_slice, h4a, h4b,
    hlenA, hlenB, hmodA, hmodB, hnA, hnB, hne]

/-- Witness for C4: the claim's concrete instance, a 2×3 matrix times a
2×3 matrix (cols 3 ≠ rows 2), each stored in a consistent 24-byte buffer. -/
theorem C4_dimension_mismatch_witness :
    (alistLookup 1 (HostState.mk [(1, List.replicate 24 0), (2, List.replicate 24 0)]
        [(1, (2, 3)), (2, (2, 3))] 3).matrix_dims = some (2, 3) ∧
     (3 : Nat) ≠ 2) ∧
    matrix_multiply_f32 (HostState.mk [(1, List.replicate 24 0), (2, List.replicate 24 0)]
        [(1, (2, 3)), (2, (2, 3))] 3) 1 2 =
      (HostState.mk [(1, List.replicate 24 0), (2, List.replicate 24 0)]
        [(1, (2, 3)), (2, (2, 3))] 3, .err .dimensionMismatch) :=
  ⟨⟨by decide, by decide⟩,
   C4_dimension_mismatch _ 1 2 2 3 2 3 (List.replicate 24 0) (List.replicate 24 0)
     (by decide) (by decide) (by decide) (by decide) (by decide) (by decide)
     (by decide) (by decide) (by decide)⟩

/-- C7. Write/read round-trip: on a live buffer of size `N < 2^32` (every
real wasm32 buffer satisfies this), writing `data` at `offset` with
`offset + len(data) ≤ N` succeeds, and reading back the same range
returns exactly `data`. -/
theorem C7_write_read_roundtrip (s : HostState) (h : Handle) (buf data : List Nat)
    (off : Nat)
    (hbuf : alistLookup h s.buffers = some buf)
    (hlen : off + data.length ≤ buf.length)
    (hN : buf.length < U32M) :
    (write_to_host s data h off).2 = .okUnit ∧
    (read_from_host (write_to_host s data h off).1 h off data.length).2 =
      .okBytes data := by
  have hoff : off % U32M = off := Nat.mod_eq_of_lt (by omega)
  have hsum : (off + data.length) % U32M = off + data.length :=
    Nat.mod_eq_of_lt (by omega)
  have hdl : data.length % U32M = data.length := Nat.mod_eq_of_lt (by omega)
  have hw : write_to_host s data h off =
      ({ s with buffers := alistInsert h (listWrite buf off data) s.buffers }, .okUnit) := by
    simp only [write_to_host, hbuf, hoff, hsum]
    have hnotgt : ¬ off + data.length > buf.length := by omega
    simp [hnotgt]
  refine ⟨by rw [hw], ?_⟩
  rw [hw]
  have hlook : alistLookup h (alistInsert h (listWrite buf off data) s.buffers) =
      some (listWrite buf off data) := alistLookup_insert_self ..
  have hwlen : (listWrite buf off data).length = buf.length := listWrite_length hlen
  simp only [read_from_host, hlook, hoff, hdl, hsum]
  have hnotgt : ¬ off + data.length > (listWrite buf off data).length := by omega
  simp [hnotgt, (by omega : off ≤ off + data.length)]
  exact listWrite_readback hlen

/-- Witness for C7: write `[7, 8]` at offset 1 of a live 4-byte buffer
and read it back. -/
theorem C7_write_read_roundtrip_witness :
    (alistLookup 1 (HostState.mk [(1, [0, 0, 0, 0])] [] 2).buffers = some [0, 0, 0, 0] ∧
     1 + 2 ≤ 4) ∧
    (write_to_host (HostState.mk [(1, [0, 0, 0, 0])] [] 2) [7, 8] 1 1).2 = .okUnit ∧
    (read_from_host (write_to_host (HostState.mk [(1, [0, 0, 0, 0])] [] 2) [7, 8] 1 1).1
        1 1 2).2 = .okBytes [7, 8] :=
  ⟨⟨by decide, by decide⟩,
   C7_write_read_roundtrip (HostState.mk [(1, [0, 0, 0, 0])] [] 2) 1 [0, 0, 0, 0] [7, 8] 1
     (by decide) (by decide) (by decide)⟩

/-- C5. `allocate(0)` always fails, the error is of the spec's
InvalidArgument kind, and the failed call leaves the state (including the
handle counter) untouched, so any following `allocate` behaves exactly as
if the failed call had never happened. -/
theorem C5_allocate_zero_invalid_argument :
    ∀ (s : HostState) (size : Nat),
      allocate_buffer s 0 = (s, .err (.other "Cannot allocate zero-size buffer")) ∧
      errorKind (.other "Cannot allocate zero-size buffer") = .invalidArgument ∧
      allocate_buffer (allocate_buffer s 0).1 size = allocate_buffer s size := by
  intro s size
  exact ⟨rfl, rfl, rfl⟩

/-- C6. Allocation-size truncation: `allocate(2^32)` does not create a
2^32-byte zero buffer — `size as usize` truncates to 0 on wasm32, so the
call succeeds with a 0-byte buffer, and the following `read(h, 0, 2^32)`
(its length also truncated to 0) returns 0 bytes instead of the 2^32 zero
bytes the claim requires. -/
theorem C6_allocate_size_truncation :
    (run initState [.alloc (2 ^ 32), .read 1 0 (2 ^ 32)]).2 =
      [.okHandle 1, .okBytes []] ∧
    alistLookup 1 (run initState [.alloc (2 ^ 32), .read 1 0 (2 ^ 32)]).1.buffers =
      some [] ∧
    (0 : Nat) ≠ 2 ^ 32 := by
  decide

/-- C8. Handle uniqueness and monotonicity: along any operation sequence
from the initial state, the handles handed out by successful allocations
(`allocate_buffer` and `matrix_multiply_f32` results alike) are strictly
increasing and strictly positive; and once `free(h)` succeeds, no
continuation — whatever operations it interleaves — ever hands out `h`
again. -/
theorem C8_handle_uniqueness (ops l₁ l₂ : List Op) (h : Handle) :
    List.Chain' (fun x y => x < y) (allocHandles (run initState ops).2) ∧
    (∀ g ∈ allocHandles (run initState ops).2, 0 < g) ∧
    ((free_buffer (run initState l₁).1 h).2 = .okUnit →
      h ∉ allocHandles (run (free_buffer (run initState l₁).1 h).1 l₂).2) := by
  obtain ⟨_, _, hg, hc⟩ := run_props ops initState Inv_initState
  refine ⟨hc, fun g hgm => Nat.lt_of_lt_of_le Nat.zero_lt_one (hg g hgm), ?_⟩
  intro hfree hmem
  obtain ⟨hi1, _, _, _⟩ := run_props l₁ initState Inv_initState
  obtain ⟨v, hv⟩ := free_ok_lookup hfree
  have hhlt : h < (run initState l₁).1.next_handle :=
    hi1.2.2.1 (h, v) (alistLookup_some_mem hv)
  obtain ⟨hi2, _, _⟩ := step_props (run initState l₁).1 (.free h) hi1
  obtain ⟨_, _, hg2, _⟩ := run_props l₂ (free_buffer (run initState l₁).1 h).1 hi2
  have hge := hg2 h hmem
  have hnext : (free_buffer (run initState l₁).1 h).1.next_handle =
      (run initState l₁).1.next_handle := by
    rw [free_ok_state hv]
  rw [hnext] at hge
  exact Nat.lt_irrefl _ (Nat.lt_of_le_of_lt hge hhlt)

/-- Witness for C8 on a concrete trace: handles 1, 2, 3 are allocated in
strictly increasing order (with a free of 1 interleaved), and after
freeing handle 1 two further allocations never return 1. -/
theorem C8_handle_uniqueness_witness :
    (free_buffer (run initState [.alloc 5]).1 1).2 = .okUnit ∧
    List.Chain' (fun x y => x < y)
      (allocHandles (run initState [.alloc 1, .alloc 2, .free 1, .alloc 3]).2) ∧
    (∀ g ∈ allocHandles (run initState [.alloc 1, .alloc 2, .free 1, .alloc 3]).2, 0 < g) ∧
    1 ∉ allocHandles (run (free_buffer (run initState [.alloc 5]).1 1).1
      [.alloc 6, .alloc 7]).2 :=
  ⟨by decide,
   (C8_handle_uniqueness [.alloc 1, .alloc 2, .free 1, .alloc 3] [.alloc 5]
      [.alloc 6, .alloc 7] 1).1,
   (C8_handle_uniqueness [.alloc 1, .alloc 2, .free 1, .alloc 3] [.alloc 5]
      [.alloc 6, .alloc 7] 1).2.1,
   (C8_handle_uniqueness [.alloc 1, .alloc 2, .free 1, .alloc 3] [.alloc 5]
      [.alloc 6, .alloc 7] 1).2.2 (by decide)⟩

/-- C9. Invalid handles: in any reachable state, if `h` has no live
buffer then `free`, `write`, `read`, `register_shape` and `get_shape` on
`h` all fail with InvalidHandle and leave the state unchanged; moreover a
successful `free(g)` removes both buffer and shape, so `get_shape(g)` and
a second `free(g)` fail with InvalidHandle afterwards. -/
theorem C9_invalid_handle (ops : List Op) (h g : Handle) (data : List Nat)
    (off len rows cols : Nat) :
    (alistLookup h (run initState ops).1.buffers = none →
      free_buffer (run initState ops).1 h = ((run initState ops).1, .err .invalidHandle) ∧
      write_to_host (run initState ops).1 data h off =
        ((run initState ops).1, .err .invalidHandle) ∧
      read_from_host (run initState ops).1 h off len =
        ((run initState ops).1, .err .invalidHandle) ∧
      register_matrix_dimensions (run initState ops).1 h rows cols =
        ((run initState ops).1, .err .invalidHandle) ∧
      get_matrix_dimensions (run initState ops).1 h =
        ((run initState ops).1, .err .invalidHandle)) ∧
    ((free_buffer (run initState ops).1 g).2 = .okUnit →
      (get_matrix_dimensions (free_buffer (run initState ops).1 g).1 g).2 =
        .err .invalidHandle ∧
      (free_buffer (free_buffer (run initState ops).1 g).1 g).2 = .err .invalidHandle) := by
  obtain ⟨hi, _, _, _⟩ := run_props ops initState Inv_initState
  constructor
  · intro hn
    have hdimn : alistLookup h (run initState ops).1.matrix_dims = none := by
      cases hl : alistLookup h (run initState ops).1.matrix_dims with
      | none => rfl
      | some d => exact absurd hn (hi.2.2.2.2 (h, d) (alistLookup_some_mem hl))
    refine ⟨?_, ?_, ?_, ?_, ?_⟩
    · simp [free_buffer, hn]
    · simp [write_to_host, hn]
    · simp [read_from_host, hn]
    · simp [register_matrix_dimensions, hn]
    · simp [get_matrix_dimensions, hdimn]
  · intro hfree
    obtain ⟨v, hv⟩ := free_ok_lookup hfree
    rw [free_ok_state hv]
    constructor
    · simp [get_matrix_dimensions, alistLookup_remove_self]
    · simp [free_buffer, alistLookup_remove_self]

/-- Witness for C9: after `alloc(4)` (handle 1) and registering a shape
for it, handle 7 is not live and every operation on it fails
InvalidHandle; freeing handle 1 succeeds, after which `get_shape(1)` and
a second `free(1)` fail InvalidHandle. -/
theorem C9_invalid_handle_witness :
    (alistLookup 7 (run initState [.alloc 4, .regDims 1 1 1]).1.buffers = none ∧
     (free_buffer (run initState [.alloc 4, .regDims 1 1 1]).1 1).2 = .okUnit) ∧
    (free_buffer (run initState [.alloc 4, .regDims 1 1 1]).1 7 =
      ((run initState [.alloc 4, .regDims 1 1 1]).1, .err .invalidHandle) ∧
     write_to_host (run initState [.alloc 4, .regDims 1 1 1]).1 [] 7 0 =
      ((run initState [.alloc 4, .regDims 1 1 1]).1, .err .invalidHandle) ∧
     read_from_host (run initState [.alloc 4, .regDims 1 1 1]).1 7 0 0 =
      ((run initState [.alloc 4, .regDims 1 1 1]).1, .err .invalidHandle) ∧
     register_matrix_dimensions (run initState [.alloc 4, .regDims 1 1 1]).1 7 0 0 =
      ((run initState [.alloc 4, .regDims 1 1 1]).1, .err .invalidHandle) ∧
     get_matrix_dimensions (run initState [.alloc 4, .regDims 1 1 1]).1 7 =
      ((run initState [.alloc 4, .regDims 1 1 1]).1, .err .invalidHandle)) ∧
    ((get_matrix_dimensions (free_buffer (run initState [.alloc 4, .regDims 1 1 1]).1 1).1 1).2 =
      .err .invalidHandle ∧
     (free_buffer (free_buffer (run initState [.alloc 4, .regDims 1 1 1]).1 1).1 1).2 =
      .err .invalidHandle) :=
  ⟨⟨by decide, by decide⟩,
   (C9_invalid_handle [.alloc 4, .regDims 1 1 1] 7 1 [] 0 0 0 0).1 (by decide),
   (C9_invalid_handle [.alloc 4, .regDims 1 1 1] 7 1 [] 0 0 0 0).2 (by decide)⟩

/-- C10. Error atomicity: whenever an operation returns an `err` result,
the entire state — buffer table, dimension table and handle counter — is
exactly the state before the call; in particular a failed multiply
allocates no handle and stores nothing. -/
theorem C10_error_atomicity :
    ∀ (s : HostState) (op : Op) (e : HostError),
      (step s op).2 = .err e → (step s op).1 = s := by
  intro s op e
  cases op <;>
    simp only [step, allocate_buffer, free_buffer, write_to_host, read_from_host,
      register_matrix_dimensions, get_matrix_dimensions, matrix_multiply_f32] <;>
    (repeat' split) <;>
    (intro h; first | rfl | nomatch h)

/-- Witness for C10 at a concrete erroring call. -/
theorem C10_error_atomicity_witness :
    (step initState (.alloc 0)).2 = .err (.other "Cannot allocate zero-size buffer") ∧
    (step initState (.alloc 0)).1 = initState :=
  ⟨by decide,
   C10_error_atomicity initState (.alloc 0) (.other "Cannot allocate zero-size buffer")
     (by decide)⟩

end HostOffload
